import Mathlib

/-!
# Verification of the `inputsynth` keymap-resolution engine

A shallow embedding of `src/lib.rs` (the `InputSynth` library): the keymap
snapshot construction (`get_keymap_state`), the event-drain / cache
invalidation loop (`handle_events`), the key-sequence resolver
(`find_key_sequence`) and the character dispatcher (`ascii_char`).

The external xkb keymap handle is modelled as a pure record of the query
functions the code calls on it; the X connection's event queue is modelled
as a list of events; emitted XTEST requests are collected in a list.
Modifier indices in xkb are small (below 32, since modifier masks are
32-bit), so the `as u8` casts on modifier indices in the source never
truncate and are omitted from the model.
-/

/-- One X event as seen by `poll_for_event`: either a `MappingNotify`
(keyboard layout change) or any other event, which `handle_events` ignores. -/
inductive XEvent where
  | mappingNotify
  | other

/-- Requests emitted through the connection by `ascii_char`:
`xtest_fake_input(KEY_PRESS_EVENT, code, ...)`,
`xtest_fake_input(KEY_RELEASE_EVENT, code, ...)`, and `flush()`. -/
inductive Request where
  | keyPress (code : Nat)
  | keyRelease (code : Nat)
  | flush
deriving DecidableEq

/-- Outcome of a fallible call in the Rust code: `Ok`, a propagated
protocol `Error` (the `?` operator), or a panic (`unwrap()` on `None`). -/
inductive Outcome (α : Type) where
  | ok (a : α)
  | protocolError
  | panicked

/-- The xkb keymap handle (`xkbcommon::xkb::Keymap`), modelled as the pure
query functions the source calls on it:
* `keys` — the keycodes visited by `key_for_each`, in its fixed iteration
  order;
* `numMods` — `num_mods()`;
* `numLevels k` — `num_levels_for_key(k, 0)` (layout 0);
* `symsAtLevel k level` — `key_get_syms_by_level(k, 0, level)`;
* `modsForLevel k level` — the masks `xkb_keymap_key_get_mods_for_level`
  writes for `(k, layout 0, level)` (at most 4 are written into the
  caller's buffer);
* `keyActivatesMod k m` — whether, starting from the reset state
  (`update_mask(0,0,0,0,0,0)`) and pressing `k`
  (`update_key(k, Down)`), `mod_index_is_active(m, STATE_MODS_DEPRESSED)`
  holds. -/
structure Keymap where
  keys : List Nat
  numMods : Nat
  numLevels : Nat → Nat
  symsAtLevel : Nat → Nat → List Nat
  modsForLevel : Nat → Nat → List Nat
  keyActivatesMod : Nat → Nat → Bool

/-- `HashMap<u8, u32>` insert: replaces the value when the key is present,
otherwise adds the binding. -/
def mapInsert (l : List (Nat × Nat)) (key v : Nat) : List (Nat × Nat) :=
  if l.any (fun p => p.1 == key) then
    l.map (fun p => if p.1 == key then (key, v) else p)
  else
    l ++ [(key, v)]

/-- `HashMap` lookup (`get`). -/
def mapGet (l : List (Nat × Nat)) (key : Nat) : Option Nat :=
  (l.find? (fun p => p.1 == key)).map (fun p => p.2)

/-- `HashMap::contains_key`. -/
def mapContains (l : List (Nat × Nat)) (key : Nat) : Bool :=
  l.any (fun p => p.1 == key)

/-- The `KeymapState` struct: the forward keymap plus the derived
`modifier_keycode: HashMap<u8, u32>` map. -/
structure KeymapState where
  mapping : Keymap
  modifier_keycode : List (Nat × Nat)

/-- The closure body run by `key_for_each` in `get_keymap_state`
(lib.rs:121-130): reset the state, press `k`, and for each
`m in 0..num_mods()` that is now depressed, `modifier_keycode.insert(m, k)`. -/
def insertModsForKey (km : Keymap) (acc : List (Nat × Nat)) (k : Nat) : List (Nat × Nat) :=
  (List.range km.numMods).foldl
    (fun acc2 m => if km.keyActivatesMod k m then mapInsert acc2 m k else acc2)
    acc

/-- The modifier-derivation loop of `get_keymap_state` (lib.rs:120-130):
run `insertModsForKey` over every keycode in `key_for_each` order,
starting from the empty map. -/
def buildModifierKeycode (km : Keymap) : List (Nat × Nat) :=
  km.keys.foldl (insertModsForKey km) []

/-- One entry of `list_input_devices().reply().devices`: its
`device_use == DeviceUse::IS_X_KEYBOARD` flag and its `device_id`. -/
structure DeviceInfo where
  device_use_is_keyboard : Bool
  device_id : Nat
deriving DecidableEq

/-- `InputSynth::get_keymap_state` (lib.rs:106-136). `devices` is the
outcome of `list_input_devices(conn)?.reply()?` (a protocol error
propagates); the keyboard device is selected with
`.find(|d| d.device_use == IS_X_KEYBOARD).unwrap()` — the `unwrap`
panics when no device is flagged as a keyboard. `deviceKeymap` models
`xkb_x11_keymap_new_from_device` for each device id. -/
def get_keymap_state (devices : Outcome (List DeviceInfo))
    (deviceKeymap : Nat → Keymap) : Outcome KeymapState :=
  match devices with
  | .protocolError => .protocolError
  | .panicked => .panicked
  | .ok ds =>
    match ds.find? (fun d => d.device_use_is_keyboard) with
    | none => .panicked
    | some d =>
      let mapping := deviceKeymap d.device_id
      .ok { mapping := mapping, modifier_keycode := buildModifierKeycode mapping }

/-- `InputSynth::handle_events` (lib.rs:138-147), instrumented with a
rebuild counter. The queue is drained event by event; every
`MappingNotify` replaces the cached snapshot with a fresh
`get_keymap_state` result. `rebuild` is the outcome `get_keymap_state`
produces during this drain — constant, because the drain is synchronous
and the device state does not change while it runs. An error outcome
propagates out of the loop via `?`. Returns the final cached snapshot and
the total number of rebuilds performed. -/
def handle_events (rebuild : Outcome KeymapState) :
    List XEvent → KeymapState → Nat → Outcome (KeymapState × Nat)
  | [], st, n => .ok (st, n)
  | .other :: rest, st, n => handle_events rebuild rest st n
  | .mappingNotify :: rest, _, n =>
    match rebuild with
    | .ok st' => handle_events rebuild rest st' (n + 1)
    | .protocolError => .protocolError
    | .panicked => .panicked

/-- Number of `MappingNotify` events in a queue. -/
def countMappingNotify (q : List XEvent) : Nat :=
  (q.filter (fun e => match e with | .mappingNotify => true | .other => false)).length

/-- Whether a queue contains a `MappingNotify` event. -/
def anyMappingNotify (q : List XEvent) : Bool :=
  q.any (fun e => match e with | .mappingNotify => true | .other => false)

/-- The level-match test of the scan loop (lib.rs:194-195):
`syms.len() == 1 && syms[0] == sym`. -/
def levelMatches (km : Keymap) (sym k level : Nat) : Bool :=
  (km.symsAtLevel k level).length == 1 && (km.symsAtLevel k level)[0]? == some sym

/-- The closure body run by `key_for_each` in the scan phase of
`find_key_sequence` (lib.rs:190-200): keycodes reached while
`ans.is_some()` are skipped; otherwise walk levels
`0..num_levels_for_key(k, 0)` and `ans.replace((level, k))` on every
match. -/
def scanKeyStep (km : Keymap) (sym : Nat) (ans : Option (Nat × Nat)) (k : Nat) :
    Option (Nat × Nat) :=
  if ans.isSome then ans
  else
    (List.range (km.numLevels k)).foldl
      (fun a level => if levelMatches km sym k level then some (level, k) else a)
      ans

/-- The scan phase of `find_key_sequence` (lib.rs:189-200). -/
def findTarget (km : Keymap) (sym : Nat) : Option (Nat × Nat) :=
  km.keys.foldl (scanKeyStep km sym) none

/-- The mask buffer passed to `xkb_keymap_key_get_mods_for_level`
(lib.rs:205-215): `[0u32; 4]`, of which the call fills at most 4 entries;
the code then iterates all 4 entries, so unfilled slots read as mask 0. -/
def masksArray (km : Keymap) (keycode level : Nat) : List Nat :=
  let ms := (km.modsForLevel keycode level).take 4
  ms ++ List.replicate (4 - ms.length) 0

/-- The bit test `(*mask & (1 << m)) != 0` (lib.rs:218/225). -/
def maskHasBit (mask m : Nat) : Bool :=
  mask &&& (1 <<< m) != 0

/-- The usability check of the `'next_mask` loop (lib.rs:217-222): a mask
survives iff no `m in 0..num_mods()` has its bit set while missing from
`modifier_keycode`. -/
def maskUsable (st : KeymapState) (mask : Nat) : Bool :=
  (List.range st.mapping.numMods).all
    (fun m => !maskHasBit mask m || mapContains st.modifier_keycode m)

/-- The emission loop for an accepted mask (lib.rs:224-228): for each
`m in 0..num_mods()` with its bit set, push
`modifier_keycode.get(&m).unwrap()`. The `unwrap` is modelled by the
`Option`: a missing entry (a panic in Rust) yields `none`. -/
def pushMods (st : KeymapState) (mask : Nat) : Option (List Nat) :=
  (List.range st.mapping.numMods).foldl
    (fun acc m =>
      acc.bind (fun mods =>
        if maskHasBit mask m then
          (mapGet st.modifier_keycode m).map (fun kc => mods ++ [kc])
        else some mods))
    (some [])

/-- The `'next_mask` loop (lib.rs:216-230): try each mask in order, skip
unusable ones, and return `Some((mods, keycode))` for the first usable
one. -/
def tryMasks (st : KeymapState) (keycode : Nat) : List Nat → Option (List Nat × Nat)
  | [] => none
  | mask :: rest =>
    if maskUsable st mask then
      (pushMods st mask).map (fun mods => (mods, keycode))
    else tryMasks st keycode rest

/-- `InputSynth::find_key_sequence` (lib.rs:186-233). -/
def find_key_sequence (st : KeymapState) (sym : Nat) : Option (List Nat × Nat) :=
  match findTarget st.mapping sym with
  | none => none
  | some (level, keycode) => tryMasks st keycode (masksArray st.mapping keycode level)

/-- The keysym computed by `ascii_char` (lib.rs:237-242): bytes 8..=17 map
to the X function-keysym range `0xff00 + byte`; every other byte is used
unchanged. -/
def target_keysym (ch : Nat) : Nat :=
  if 8 ≤ ch ∧ ch ≤ 17 then ch + 0xff00 else ch

/-- The request sequence `ascii_char` emits for a resolved plan
(lib.rs:244-286): press each modifier keycode in plan order, press the
data key, release the data key, release the modifiers in reverse plan
order (`mods.iter().rev()`), then `flush()`. No plan emits nothing. -/
def planToRequests : Option (List Nat × Nat) → List Request
  | none => []
  | some (mods, keycode) =>
    (mods.foldl (fun acc m => acc ++ [Request.keyPress m]) [])
      ++ [Request.keyPress keycode] ++ [Request.keyRelease keycode]
      ++ (mods.reverse.foldl (fun acc m => acc ++ [Request.keyRelease m]) [])
      ++ [Request.flush]

/-- `InputSynth::ascii_char` (lib.rs:235-289), after the `handle_events`
drain: the list of requests submitted to the connection. -/
def ascii_char_requests (st : KeymapState) (ch : Nat) : List Request :=
  planToRequests (find_key_sequence st (target_keysym ch))

/-- Submit a request list through a transport that may reject any
individual request; a rejection propagates (`?`) and aborts the rest. -/
def emitAll (transport : Request → Except Unit Unit) : List Request → Except Unit Unit
  | [] => .ok ()
  | r :: rs => (transport r).bind (fun _ => emitAll transport rs)

/-- The result `ascii_char` reports to its caller, as a function of the
transport: submit every request of `ascii_char_requests` in order. -/
def ascii_char_run (transport : Request → Except Unit Unit)
    (st : KeymapState) (ch : Nat) : Except Unit Unit :=
  emitAll transport (ascii_char_requests st ch)

/-- A keycode in a keymap has a level whose symbol list matches the
target: the per-keycode guard of the scan loop. -/
def keyHasMatch (km : Keymap) (sym k : Nat) : Bool :=
  (List.range (km.numLevels k)).any (levelMatches km sym k)

/-! ## Concrete states used by counterexamples and witnesses -/

/-- A minimal keymap: one key, no modifiers, one level. -/
def kmDemo : Keymap where
  keys := [8]
  numMods := 0
  numLevels := fun _ => 1
  symsAtLevel := fun _ _ => [65]
  modsForLevel := fun _ _ => []
  keyActivatesMod := fun _ _ => false

/-- A snapshot over `kmDemo` with an empty modifier map. -/
def stDemoA : KeymapState where
  mapping := kmDemo
  modifier_keycode := []

/-- A second snapshot over `kmDemo`, used as the stale cache contents. -/
def stDemoB : KeymapState where
  mapping := kmDemo
  modifier_keycode := [(0, 1)]

/-- Two keycodes (1 then 2) both activate modifier index 0. -/
def km2ex : Keymap where
  keys := [1, 2]
  numMods := 1
  numLevels := fun _ => 1
  symsAtLevel := fun _ _ => []
  modsForLevel := fun _ _ => []
  keyActivatesMod := fun _ _ => true

/-- One keycode whose levels 0 and 1 both map to exactly the symbol 7. -/
def km3ex : Keymap where
  keys := [5]
  numMods := 0
  numLevels := fun _ => 2
  symsAtLevel := fun _ _ => [7]
  modsForLevel := fun _ _ => []
  keyActivatesMod := fun _ _ => false

/-- A keymap with two modifier keys (10 activates modifier 0, 11 activates
modifier 1) and a data key 30 whose level 1 produces symbol 100 under the
mask with both modifier bits set. -/
def km5ex : Keymap where
  keys := [10, 11, 30]
  numMods := 2
  numLevels := fun k => if k == 30 then 2 else 1
  symsAtLevel := fun k level =>
    if k == 10 then [1]
    else if k == 11 then [2]
    else if level == 0 then [99] else [100]
  modsForLevel := fun k level => if k == 30 && level == 1 then [3] else []
  keyActivatesMod := fun k m => (k == 10 && m == 0) || (k == 11 && m == 1)

/-- The snapshot the engine builds over `km5ex`. -/
def stDemo5 : KeymapState where
  mapping := km5ex
  modifier_keycode := [(0, 10), (1, 11)]

example : buildModifierKeycode km5ex = [(0, 10), (1, 11)] := by decide
example : find_key_sequence stDemo5 100 = some ([10, 11], 30) := by decide
example : findTarget km3ex 7 = some (1, 5) := by decide
example : mapGet (buildModifierKeycode km2ex) 0 = some 2 := by decide

/-! ## Lemmas about the association-map model of `HashMap<u8, u32>` -/

theorem mapGet_map_replace_self (key v : Nat) :
    ∀ (l : List (Nat × Nat)), l.any (fun p => p.1 == key) = true →
      mapGet (l.map (fun p => if p.1 == key then (key, v) else p)) key = some v := by
  intro l
  induction l with
  | nil => intro h; simp at h
  | cons p t ih =>
    intro h
    by_cases hp : p.1 = key
    · simp [mapGet, List.find?_cons, hp]
    · have hp2 : (p.1 == key) = false := by simp [hp]
      have h2 : t.any (fun q => q.1 == key) = true := by
        simpa [List.any_cons, hp2] using h
      have := ih h2
      simpa [mapGet, List.find?_cons, hp2, hp] using this

theorem mapGet_cons_hit (p : Nat × Nat) (t : List (Nat × Nat)) (k : Nat)
    (h : (p.1 == k) = true) : mapGet (p :: t) k = some p.2 := by
  simp [mapGet, List.find?_cons, h]

theorem mapGet_cons_miss (p : Nat × Nat) (t : List (Nat × Nat)) (k : Nat)
    (h : (p.1 == k) = false) : mapGet (p :: t) k = mapGet t k := by
  simp [mapGet, List.find?_cons, h]

theorem mapGet_map_replace_ne (key v k : Nat) (hk : k ≠ key) :
    ∀ (l : List (Nat × Nat)),
      mapGet (l.map (fun p => if p.1 == key then (key, v) else p)) k = mapGet l k := by
  intro l
  induction l with
  | nil => rfl
  | cons p t ih =>
    simp only [List.map_cons]
    by_cases hp : p.1 = key
    · have hb : (p.1 == key) = true := by simp [hp]
      rw [if_pos hb]
      rw [mapGet_cons_miss _ _ _ (by simp [Ne.symm hk]),
        mapGet_cons_miss _ _ _ (by simp [hp, Ne.symm hk])]
      exact ih
    · have hb : (p.1 == key) = false := by simp [hp]
      rw [if_neg (by simp [hb])]
      rcases hpk : (p.1 == k) with _ | _
      · rw [mapGet_cons_miss _ _ _ hpk, mapGet_cons_miss _ _ _ hpk]
        exact ih
      · rw [mapGet_cons_hit _ _ _ hpk, mapGet_cons_hit _ _ _ hpk]

theorem mapGet_mapInsert (l : List (Nat × Nat)) (key v k : Nat) :
    mapGet (mapInsert l key v) k = if k = key then some v else mapGet l k := by
  unfold mapInsert
  by_cases hany : l.any (fun p => p.1 == key) = true
  · rw [if_pos hany]
    by_cases hk : k = key
    · subst hk
      rw [if_pos rfl]
      exact mapGet_map_replace_self k v l hany
    · rw [if_neg hk]
      exact mapGet_map_replace_ne key v k hk l
  · rw [if_neg hany]
    have hnone : l.find? (fun p => p.1 == key) = none := by
      rw [List.find?_eq_none]
      intro p hp hpk
      exact hany (List.any_eq_true.mpr ⟨p, hp, hpk⟩)
    by_cases hk : k = key
    · subst hk
      simp [mapGet, List.find?_append, hnone, List.find?_cons]
    · have hne : (key == k) = false := by simp [Ne.symm hk]
      simp [mapGet, List.find?_append, List.find?_cons, hne, hk]

theorem mapContains_eq_isSome_mapGet (l : List (Nat × Nat)) (k : Nat) :
    mapContains l k = (mapGet l k).isSome := by
  induction l with
  | nil => rfl
  | cons p t ih =>
    rcases h : (p.1 == k) with _ | _
    · rw [mapGet_cons_miss _ _ _ h]
      simpa [mapContains, List.any_cons, h] using ih
    · rw [mapGet_cons_hit _ _ _ h]
      simp [mapContains, List.any_cons, h]

/-! ## The derived modifier map records the last activating keycode -/

theorem mapGet_insertModsForKey (km : Keymap) (k : Nat) :
    ∀ (n : Nat) (acc : List (Nat × Nat)) (m : Nat),
      mapGet ((List.range n).foldl
          (fun a m2 => if km.keyActivatesMod k m2 then mapInsert a m2 k else a) acc) m
        = if m < n ∧ km.keyActivatesMod k m then some k else mapGet acc m := by
  intro n
  induction n with
  | zero => intro acc m; simp
  | succ n ih =>
    intro acc m
    rw [List.range_succ, List.foldl_append, List.foldl_cons, List.foldl_nil]
    rcases han : km.keyActivatesMod k n with _ | _
    · rw [if_neg (show ¬(false = true) by simp)]
      rw [ih]
      by_cases hm : m = n
      · subst hm
        simp [han]
      · have hiff : (m < n + 1 ∧ km.keyActivatesMod k m = true)
            ↔ (m < n ∧ km.keyActivatesMod k m = true) := by
          constructor
          · rintro ⟨h1, h2⟩; exact ⟨by omega, h2⟩
          · rintro ⟨h1, h2⟩; exact ⟨by omega, h2⟩
        by_cases hcond : m < n ∧ km.keyActivatesMod k m = true
        · rw [if_pos hcond, if_pos (hiff.mpr hcond)]
        · rw [if_neg hcond, if_neg (fun h => hcond (hiff.mp h))]
    · rw [if_pos rfl]
      rw [mapGet_mapInsert, ih]
      by_cases hm : m = n
      · subst hm
        simp [han]
      · rw [if_neg hm]
        have hiff : (m < n + 1 ∧ km.keyActivatesMod k m = true)
            ↔ (m < n ∧ km.keyActivatesMod k m = true) := by
          constructor
          · rintro ⟨h1, h2⟩; exact ⟨by omega, h2⟩
          · rintro ⟨h1, h2⟩; exact ⟨by omega, h2⟩
        by_cases hcond : m < n ∧ km.keyActivatesMod k m = true
        · rw [if_pos hcond, if_pos (hiff.mpr hcond)]
        · rw [if_neg hcond, if_neg (fun h => hcond (hiff.mp h))]

theorem mapGet_foldl_insertModsForKey (km : Keymap) (m : Nat) :
    ∀ (keys : List Nat) (acc : List (Nat × Nat)),
      mapGet (keys.foldl (insertModsForKey km) acc) m
        = (if m < km.numMods then keys.reverse.find? (fun k => km.keyActivatesMod k m)
           else none).or (mapGet acc m) := by
  intro keys
  induction keys with
  | nil =>
    intro acc
    simp
  | cons k keys ih =>
    intro acc
    rw [List.foldl_cons, ih]
    have hstep : mapGet (insertModsForKey km acc k) m
        = if m < km.numMods ∧ km.keyActivatesMod k m = true then some k
          else mapGet acc m :=
      mapGet_insertModsForKey km k km.numMods acc m
    by_cases hm : m < km.numMods
    · rw [if_pos hm, if_pos hm, List.reverse_cons, List.find?_append]
      rcases hfind : keys.reverse.find? (fun k2 => km.keyActivatesMod k2 m) with _ | k2
      · rw [Option.none_or, Option.none_or, hstep]
        rcases hak : km.keyActivatesMod k m with _ | _
        · simp [List.find?_cons, hak, hm]
        · simp [List.find?_cons, hak, hm]
      · simp [hfind]
    · rw [if_neg hm, if_neg hm, Option.none_or, Option.none_or, hstep,
        if_neg (fun h => hm h.1)]

/-- Claim C2 (corrected): the entry in `modifier_keycode` for a modifier
index is the last keycode in `key_for_each` order that activates it, since
`HashMap::insert` overwrites earlier entries. -/
theorem buildModifierKeycode_last_activator (km : Keymap) (m : Nat) :
    mapGet (buildModifierKeycode km) m
      = if m < km.numMods then km.keys.reverse.find? (fun k => km.keyActivatesMod k m)
        else none := by
  unfold buildModifierKeycode
  rw [mapGet_foldl_insertModsForKey]
  rw [show mapGet [] m = none from rfl, Option.or_none]

/-! ## The scan phase keeps the last matching level of the first matching key -/

theorem scanLevels_foldl (km : Keymap) (sym k : Nat) :
    ∀ (n : Nat) (a : Option (Nat × Nat)),
      (List.range n).foldl
          (fun a2 level => if levelMatches km sym k level then some (level, k) else a2) a
        = (((List.range n).reverse.find? (levelMatches km sym k)).map
            (fun l => (l, k))).or a := by
  intro n
  induction n with
  | zero => intro a; simp
  | succ n ih =>
    intro a
    rw [List.range_succ, List.foldl_append, List.foldl_cons, List.foldl_nil,
      List.reverse_append]
    rcases hmatch : levelMatches km sym k n with _ | _
    · rw [if_neg (show ¬(false = true) by simp), ih]
      simp [List.find?_cons, hmatch]
    · rw [if_pos rfl]
      simp [List.find?_cons, hmatch]

theorem scanKeyStep_some (km : Keymap) (sym k : Nat) (a : Option (Nat × Nat))
    (h : a.isSome = true) : scanKeyStep km sym a k = a := by
  simp [scanKeyStep, h]

theorem foldl_scanKeyStep_some (km : Keymap) (sym : Nat) :
    ∀ (keys : List Nat) (a : Option (Nat × Nat)), a.isSome = true →
      keys.foldl (scanKeyStep km sym) a = a := by
  intro keys
  induction keys with
  | nil => intro a _; rfl
  | cons k keys ih =>
    intro a h
    rw [List.foldl_cons, scanKeyStep_some km sym k a h]
    exact ih a h

theorem scanKeyStep_none (km : Keymap) (sym k : Nat) :
    scanKeyStep km sym none k
      = ((List.range (km.numLevels k)).reverse.find? (levelMatches km sym k)).map
          (fun l => (l, k)) := by
  unfold scanKeyStep
  rw [if_neg (by simp), scanLevels_foldl, Option.or_none]

theorem keyHasMatch_eq_isSome (km : Keymap) (sym k : Nat) :
    keyHasMatch km sym k
      = ((List.range (km.numLevels k)).reverse.find? (levelMatches km sym k)).isSome := by
  unfold keyHasMatch
  rcases h : (List.range (km.numLevels k)).reverse.find? (levelMatches km sym k) with _ | l
  · rw [List.find?_eq_none] at h
    rw [show (none : Option Nat).isSome = false from rfl]
    rw [List.any_eq_false]
    intro l hl
    exact h l (List.mem_reverse.mpr hl)
  · have hp := List.find?_some h
    have hmem := List.mem_reverse.mp (List.mem_of_find?_eq_some h)
    rw [show (some l).isSome = true from rfl]
    exact List.any_eq_true.mpr ⟨l, hmem, hp⟩

/-- Claim C3 (corrected): the resolver picks the first keycode in
`key_for_each` order that has any matching level; within that keycode the
highest-index matching level wins, because the inner loop keeps replacing
`ans` without breaking. -/
theorem findTarget_first_key_last_level (km : Keymap) (sym : Nat) :
    findTarget km sym
      = (km.keys.find? (keyHasMatch km sym)).bind
          (fun k =>
            ((List.range (km.numLevels k)).reverse.find? (levelMatches km sym k)).map
              (fun l => (l, k))) := by
  unfold findTarget
  induction km.keys with
  | nil => rfl
  | cons k keys ih =>
    rw [List.foldl_cons, scanKeyStep_none]
    rcases hk : keyHasMatch km sym k with _ | _
    · have hfind :
          (List.range (km.numLevels k)).reverse.find? (levelMatches km sym k) = none := by
        have := keyHasMatch_eq_isSome km sym k
        rw [hk] at this
        exact Option.not_isSome_iff_eq_none.mp (by rw [← this]; simp)
      rw [hfind]
      rw [show (Option.map (fun l => (l, k)) none) = none from rfl]
      rw [ih, List.find?_cons_of_neg _ (by simp [hk])]
    · have hfind :
          ((List.range (km.numLevels k)).reverse.find? (levelMatches km sym k)).isSome
            = true := by
        rw [← keyHasMatch_eq_isSome, hk]
      rcases hsome : (List.range (km.numLevels k)).reverse.find? (levelMatches km sym k)
          with _ | l
      · rw [hsome] at hfind; simp at hfind
      · rw [show (Option.map (fun l => (l, k)) (some l)) = some (l, k) from rfl]
        rw [foldl_scanKeyStep_some km sym keys (some (l, k)) rfl]
        rw [List.find?_cons_of_pos _ hk]
        simp [hsome]

/-! ## The mask-alternative loop -/

theorem tryMasks_eq (st : KeymapState) (kc : Nat) :
    ∀ ms : List Nat,
      tryMasks st kc ms
        = (ms.find? (maskUsable st)).bind
            (fun mask => (pushMods st mask).map (fun mods => (mods, kc))) := by
  intro ms
  induction ms with
  | nil => rfl
  | cons mask rest ih =>
    rcases hu : maskUsable st mask with _ | _
    · simp [tryMasks, hu, ih, List.find?_cons]
    · simp [tryMasks, hu, List.find?_cons]

theorem maskUsable_iff (st : KeymapState) (mask : Nat) :
    maskUsable st mask = true
      ↔ ∀ m, m < st.mapping.numMods → maskHasBit mask m = true →
          mapContains st.modifier_keycode m = true := by
  unfold maskUsable
  rw [List.all_eq_true]
  constructor
  · intro h m hm hb
    have hall := h m (List.mem_range.mpr hm)
    simpa [hb] using hall
  · intro h m hm
    rcases hb : maskHasBit mask m with _ | _
    · simp [hb]
    · simp [hb, h m (List.mem_range.mp hm) hb]

theorem pushMods_foldl (st : KeymapState) (mask : Nat) :
    ∀ (n : Nat) (mods : List Nat),
      (∀ m, m < n → maskHasBit mask m = true → mapContains st.modifier_keycode m = true) →
      (List.range n).foldl
          (fun acc m =>
            acc.bind (fun mods2 =>
              if maskHasBit mask m then
                (mapGet st.modifier_keycode m).map (fun kc => mods2 ++ [kc])
              else some mods2))
          (some mods)
        = some (mods ++ ((List.range n).filter (maskHasBit mask)).filterMap
            (mapGet st.modifier_keycode)) := by
  intro n
  induction n with
  | zero => intro mods h; simp
  | succ n ih =>
    intro mods h
    rw [List.range_succ, List.foldl_append, List.foldl_cons, List.foldl_nil]
    rw [ih mods (fun m hm hb => h m (by omega) hb)]
    rw [List.filter_append, List.filterMap_append]
    rcases hb : maskHasBit mask n with _ | _
    · simp [hb]
    · have hc := h n (by omega) hb
      rw [mapContains_eq_isSome_mapGet] at hc
      rcases hget : mapGet st.modifier_keycode n with _ | kc
      · rw [hget] at hc; simp at hc
      · simp [hb, hget, List.filter_cons]

theorem pushMods_eq_of_usable (st : KeymapState) (mask : Nat)
    (h : maskUsable st mask = true) :
    pushMods st mask
      = some (((List.range st.mapping.numMods).filter (maskHasBit mask)).filterMap
          (mapGet st.modifier_keycode)) := by
  unfold pushMods
  have hfold := pushMods_foldl st mask st.mapping.numMods []
    (fun m hm hb => (maskUsable_iff st mask).mp h m hm hb)
  simpa using hfold

theorem find_key_sequence_mask (st : KeymapState) (sym : Nat) (mods : List Nat) (kc : Nat)
    (h : find_key_sequence st sym = some (mods, kc)) :
    ∃ mask, maskUsable st mask = true ∧ pushMods st mask = some mods := by
  rcases hft : findTarget st.mapping sym with _ | lk
  · have : find_key_sequence st sym = none := by
      unfold find_key_sequence; rw [hft]
    rw [this] at h
    exact absurd h (by simp)
  · rcases lk with ⟨level, kc2⟩
    have heq : find_key_sequence st sym
        = tryMasks st kc2 (masksArray st.mapping kc2 level) := by
      unfold find_key_sequence; rw [hft]
    rw [heq, tryMasks_eq] at h
    rcases hfind : (masksArray st.mapping kc2 level).find? (maskUsable st) with _ | mask
    · rw [hfind] at h; exact absurd h (by simp)
    · rw [hfind] at h
      simp only [Option.some_bind] at h
      have husable := List.find?_some hfind
      rcases hpm : pushMods st mask with _ | mods2
      · rw [hpm] at h
        exact absurd h (by simp)
      · rw [hpm] at h
        have hpair : (mods2, kc2) = (mods, kc) := by
          have hsome : some (mods2, kc2) = some (mods, kc) := by simpa using h
          exact Option.some.inj hsome
        exact ⟨mask, husable, by
          rw [hpm]
          exact congrArg (fun x => some x.1) hpair⟩

/-! ## Request-emission lemmas -/

theorem foldl_append_singleton {α β : Type} (f : α → β) :
    ∀ (l : List α) (acc : List β),
      l.foldl (fun acc2 m => acc2 ++ [f m]) acc = acc ++ l.map f := by
  intro l
  induction l with
  | nil => intro acc; simp
  | cons x t ih =>
    intro acc
    rw [List.foldl_cons, ih, List.map_cons]
    simp

theorem planToRequests_some (mods : List Nat) (kc : Nat) :
    planToRequests (some (mods, kc))
      = mods.map Request.keyPress ++ [Request.keyPress kc, Request.keyRelease kc]
        ++ (mods.map Request.keyRelease).reverse ++ [Request.flush] := by
  show (mods.foldl (fun acc m => acc ++ [Request.keyPress m]) [])
      ++ [Request.keyPress kc] ++ [Request.keyRelease kc]
      ++ (mods.reverse.foldl (fun acc m => acc ++ [Request.keyRelease m]) [])
      ++ [Request.flush] = _
  rw [foldl_append_singleton, foldl_append_singleton, List.map_reverse]
  simp [List.append_assoc]

/-! ## Claim theorems -/

/-- Claim C1 (counterexample): with two `MappingNotify` events queued,
`handle_events` performs two rebuilds, not exactly one. -/
theorem handle_events_two_notifications_two_rebuilds :
    handle_events (Outcome.ok stDemoA)
        [XEvent.mappingNotify, XEvent.mappingNotify] stDemoB 0
        = Outcome.ok (stDemoA, 2)
      ∧ (2 : Nat) ≠ 1 :=
  ⟨rfl, by decide⟩

/-- Claim C1 (corrected): draining the queue rebuilds the snapshot once
per queued `MappingNotify` notification (not exactly once); since every
rebuild reads the current device state, the final cached snapshot is the
single current rebuild result whenever at least one notification was
queued. -/
theorem handle_events_rebuild_per_notification (fresh cached : KeymapState)
    (q : List XEvent) (n : Nat) :
    handle_events (Outcome.ok fresh) q cached n
      = Outcome.ok (if anyMappingNotify q then fresh else cached,
          n + countMappingNotify q) := by
  induction q generalizing cached n with
  | nil =>
    simp [handle_events, anyMappingNotify, countMappingNotify]
  | cons e rest ih =>
    cases e with
    | mappingNotify =>
      have hstep :
          handle_events (Outcome.ok fresh) (XEvent.mappingNotify :: rest) cached n
            = handle_events (Outcome.ok fresh) rest fresh (n + 1) := rfl
      rw [hstep, ih]
      have hany : anyMappingNotify (XEvent.mappingNotify :: rest) = true := by
        simp [anyMappingNotify]
      have hcount : countMappingNotify (XEvent.mappingNotify :: rest)
          = countMappingNotify rest + 1 := by
        simp [countMappingNotify, List.filter_cons]
      rw [hany, hcount]
      have harith : n + 1 + countMappingNotify rest
          = n + (countMappingNotify rest + 1) := by omega
      rw [harith]
      simp
    | other =>
      have hstep : handle_events (Outcome.ok fresh) (XEvent.other :: rest) cached n
          = handle_events (Outcome.ok fresh) rest cached n := rfl
      rw [hstep, ih]
      have hany : anyMappingNotify (XEvent.other :: rest) = anyMappingNotify rest := by
        simp [anyMappingNotify]
      have hcount : countMappingNotify (XEvent.other :: rest)
          = countMappingNotify rest := by
        simp [countMappingNotify, List.filter_cons]
      rw [hany, hcount]

/-- Claim C2 (counterexample): in `km2ex` keycodes 1 and 2 both activate
modifier index 0; the derived map records 2 (the last in iteration order),
while the first keycode observed to activate it is 1. -/
theorem buildModifierKeycode_not_first_wins :
    mapGet (buildModifierKeycode km2ex) 0 = some 2
      ∧ km2ex.keys.find? (fun k => km2ex.keyActivatesMod k 0) = some 1
      ∧ (some 2 : Option Nat) ≠ some 1 :=
  ⟨by decide, by decide, by decide⟩

/-- Claim C3 (counterexample): in `km3ex` keycode 5 matches symbol 7 at
both level 0 and level 1; the scan returns level 1 (the last matching
level), not the first pair (0, 5). -/
theorem findTarget_not_first_level :
    findTarget km3ex 7 = some (1, 5)
      ∧ (some ((1 : Nat), (5 : Nat)) : Option (Nat × Nat)) ≠ some (0, 5) :=
  ⟨by decide, by decide⟩

/-- Claim C4 (counterexample): with an empty device list, snapshot
construction panics (the `unwrap` on `find`), it does not return an error
value. -/
theorem get_keymap_state_no_keyboard_not_error :
    get_keymap_state (Outcome.ok ([] : List DeviceInfo)) (fun _ => kmDemo)
        = Outcome.panicked
      ∧ get_keymap_state (Outcome.ok ([] : List DeviceInfo)) (fun _ => kmDemo)
          ≠ Outcome.protocolError :=
  ⟨rfl, fun h => Outcome.noConfusion h⟩

/-- Claim C4 (corrected): whenever the device list contains no device
flagged as a keyboard, `get_keymap_state` panics instead of returning a
reportable error value. -/
theorem get_keymap_state_no_keyboard_panics (ds : List DeviceInfo)
    (dk : Nat → Keymap)
    (h : ds.find? (fun d => d.device_use_is_keyboard) = none) :
    get_keymap_state (Outcome.ok ds) dk = Outcome.panicked := by
  simp only [get_keymap_state]
  rw [h]

/-- Witness for C4 at a one-element device list with no keyboard. -/
theorem get_keymap_state_no_keyboard_panics_witness :
    get_keymap_state
        (Outcome.ok [{ device_use_is_keyboard := false, device_id := 3 }])
        (fun _ => kmDemo)
      = Outcome.panicked :=
  get_keymap_state_no_keyboard_panics
    [{ device_use_is_keyboard := false, device_id := 3 }] (fun _ => kmDemo) (by decide)

/-- Claim C5: when `ascii_char` resolves a plan `(mods, keycode)`, the
emitted requests are exactly: a press per modifier keycode in plan order,
press of the data key, release of the data key, releases in the exact
reverse of the press order, then one flush; and the plan order itself is
ascending modifier-index order (the filter of an ascending range by the
accepted mask's bits). -/
theorem ascii_char_emission_order (st : KeymapState) (ch : Nat)
    (mods : List Nat) (keycode : Nat)
    (h : find_key_sequence st (target_keysym ch) = some (mods, keycode)) :
    ascii_char_requests st ch
        = mods.map Request.keyPress
          ++ [Request.keyPress keycode, Request.keyRelease keycode]
          ++ (mods.map Request.keyRelease).reverse ++ [Request.flush]
      ∧ ∃ mask, maskUsable st mask = true
          ∧ mods = ((List.range st.mapping.numMods).filter (maskHasBit mask)).filterMap
              (mapGet st.modifier_keycode) := by
  constructor
  · unfold ascii_char_requests
    rw [h, planToRequests_some]
  · obtain ⟨mask, husable, hpm⟩ :=
      find_key_sequence_mask st (target_keysym ch) mods keycode h
    refine ⟨mask, husable, ?_⟩
    rw [pushMods_eq_of_usable st mask husable] at hpm
    exact (Option.some.inj hpm).symm

/-- Witness for C5: a plan with two modifiers; releases mirror presses. -/
theorem ascii_char_emission_order_witness :
    ascii_char_requests stDemo5 100
      = [Request.keyPress 10, Request.keyPress 11, Request.keyPress 30,
         Request.keyRelease 30, Request.keyRelease 11, Request.keyRelease 10,
         Request.flush] := by
  have h := (ascii_char_emission_order stDemo5 100 [10, 11] 30 (by decide)).1
  rw [h]
  decide

/-- Claim C6: for a matched `(keycode, level)` the resolver inspects a
4-entry mask buffer in order; the result is determined by the first usable
mask (one whose set modifier bits all have `modifier_keycode` entries);
if every alternative is unusable the resolver returns `none`. -/
theorem find_key_sequence_mask_alternatives (st : KeymapState) (sym level kc : Nat)
    (h : findTarget st.mapping sym = some (level, kc)) :
    (masksArray st.mapping kc level).length = 4
    ∧ find_key_sequence st sym
        = ((masksArray st.mapping kc level).find? (maskUsable st)).bind
            (fun mask => (pushMods st mask).map (fun mods => (mods, kc)))
    ∧ ((∀ mask ∈ masksArray st.mapping kc level, maskUsable st mask = false) →
        find_key_sequence st sym = none)
    ∧ (∀ mask, maskUsable st mask = true ↔
        ∀ m, m < st.mapping.numMods → maskHasBit mask m = true →
          mapContains st.modifier_keycode m = true) := by
  have hlen : (masksArray st.mapping kc level).length = 4 := by
    simp only [masksArray]
    rw [List.length_append, List.length_replicate]
    have hle : ((st.mapping.modsForLevel kc level).take 4).length ≤ 4 := by
      rw [List.length_take]
      omega
    omega
  have heq : find_key_sequence st sym
      = ((masksArray st.mapping kc level).find? (maskUsable st)).bind
          (fun mask => (pushMods st mask).map (fun mods => (mods, kc))) := by
    have h0 : find_key_sequence st sym
        = tryMasks st kc (masksArray st.mapping kc level) := by
      unfold find_key_sequence
      rw [h]
    rw [h0, tryMasks_eq]
  refine ⟨hlen, heq, ?_, fun mask => maskUsable_iff st mask⟩
  intro hall
  rw [heq, List.find?_eq_none.mpr (fun mask hm => by simp [hall mask hm])]
  rfl

/-- Witness for C6 at the concrete snapshot `stDemo5` and symbol 100. -/
theorem find_key_sequence_mask_alternatives_witness :
    find_key_sequence stDemo5 100
      = ((masksArray stDemo5.mapping 30 1).find? (maskUsable stDemo5)).bind
          (fun mask => (pushMods stDemo5 mask).map (fun mods => (mods, 30))) :=
  (find_key_sequence_mask_alternatives stDemo5 100 1 30 (by decide)).2.1

/-- Claim C7: a byte whose target symbol has no plan causes no requests
at all, and `ascii_char` reports success for every transport. -/
theorem ascii_char_unmapped_noop (st : KeymapState) (ch : Nat)
    (h : find_key_sequence st (target_keysym ch) = none) :
    ascii_char_requests st ch = []
      ∧ ∀ transport, ascii_char_run transport st ch = Except.ok () := by
  have h1 : ascii_char_requests st ch = [] := by
    unfold ascii_char_requests
    rw [h]
    rfl
  exact ⟨h1, fun transport => by
    unfold ascii_char_run
    rw [h1]
    rfl⟩

/-- Witness for C7: byte 200 is unmapped in `stDemo5`; the run succeeds. -/
theorem ascii_char_unmapped_noop_witness :
    ascii_char_run (fun _ => Except.ok ()) stDemo5 200 = Except.ok () :=
  (ascii_char_unmapped_noop stDemo5 200 (by decide)).2 (fun _ => Except.ok ())

/-- Claim C8: bytes 8..=17 resolve against `byte + 0xff00`; every other
byte resolves against the raw byte value. -/
theorem ascii_char_control_remap (st : KeymapState) (ch : Nat) :
    (8 ≤ ch → ch ≤ 17 →
      ascii_char_requests st ch
        = planToRequests (find_key_sequence st (ch + 0xff00)))
    ∧ ((ch < 8 ∨ 17 < ch) →
      ascii_char_requests st ch = planToRequests (find_key_sequence st ch)) := by
  constructor
  · intro h1 h2
    unfold ascii_char_requests target_keysym
    rw [if_pos ⟨h1, h2⟩]
  · intro h
    unfold ascii_char_requests target_keysym
    rw [if_neg (by omega)]

/-- Witness for C8 at byte 9 (inside the remapped range). -/
theorem ascii_char_control_remap_witness :
    ascii_char_requests stDemo5 9
      = planToRequests (find_key_sequence stDemo5 (9 + 0xff00)) :=
  (ascii_char_control_remap stDemo5 9).1 (by decide) (by decide)

/-- Claim C9: `find_key_sequence` is deterministic — two runs over equal
snapshots (same forward table and same `modifier_keycode`) and the same
symbol return the same result. -/
theorem find_key_sequence_deterministic (s1 s2 : KeymapState) (sym : Nat)
    (h1 : s1.mapping = s2.mapping)
    (h2 : s1.modifier_keycode = s2.modifier_keycode) :
    find_key_sequence s1 sym = find_key_sequence s2 sym := by
  obtain ⟨m1, mk1⟩ := s1
  obtain ⟨m2, mk2⟩ := s2
  have hm : m1 = m2 := h1
  have hk : mk1 = mk2 := h2
  subst hm
  subst hk
  rfl

/-- Witness for C9 at the concrete snapshot `stDemo5`. -/
theorem find_key_sequence_deterministic_witness :
    find_key_sequence stDemo5 100 = find_key_sequence stDemo5 100 :=
  find_key_sequence_deterministic stDemo5 stDemo5 100 rfl rfl

/-- Claim C10: once a mask passes the usability check, every
`modifier_keycode` lookup in the emission loop succeeds — the `unwrap`
in lib.rs:226 is unreachable. -/
theorem modifier_unwrap_unreachable (st : KeymapState) (mask : Nat)
    (h : maskUsable st mask = true) :
    (pushMods st mask).isSome = true := by
  rw [pushMods_eq_of_usable st mask h]
  rfl

/-- Witness for C10 at the concrete snapshot `stDemo5` and mask 3. -/
theorem modifier_unwrap_unreachable_witness :
    maskUsable stDemo5 3 = true ∧ (pushMods stDemo5 3).isSome = true :=
  ⟨by decide, modifier_unwrap_unreachable stDemo5 3 (by decide)⟩
